import Mathlib

/-!
Verification of the rechner-baukasten calculator repository: a shallow
embedding of the formula engine (variable substitution, sanitizer,
expression evaluation), the formatting utilities, and the calculator
store, together with proofs of the behavioural claims about them.

Conventions of the embedding:
* JavaScript strings are modelled as `List Char` (ASCII fragments of the
  relevant regex character classes are modelled explicitly).
* JavaScript numbers are modelled by `JNum`: an exact rational for finite
  doubles plus `Infinity`, `-Infinity` and `NaN`.  IEEE rounding and
  overflow are not modelled; no claim exercises them.
* `Math.random` is modelled by threading an explicit stream of rational
  values through evaluation.
-/

set_option maxRecDepth 10000

set_option allowUnsafeReducibility true
attribute [local semireducible] Rat.add Rat.mul Rat.inv Rat.div Rat.sub Rat.neg

namespace RB

/-- ASCII model of the JS regex class `\w`, i.e. `[A-Za-z0-9_]`. -/
def isWordChar (c : Char) : Bool :=
  ('a' ≤ c && c ≤ 'z') || ('A' ≤ c && c ≤ 'Z') || ('0' ≤ c && c ≤ '9') || c = '_'

/-- ASCII model of the JS regex class `\s` (whitespace). -/
def isWsChar (c : Char) : Bool :=
  c = ' ' || c = '\t' || c = '\n' || c = '\r' || c = '\x0b' || c = '\x0c'

/-- Model of `String.prototype.trim`. -/
def jsTrim (s : List Char) : List Char :=
  ((s.dropWhile isWsChar).reverse.dropWhile isWsChar).reverse

/-- Scanner for the global regex `\{(\w+)\}`: walks the string once,
replacing every match `{name}` by `repl name` and leaving everything else
unchanged.  The second argument holds the word characters read so far
inside a candidate `{…}` token (`none` when not inside one). -/
def substLoop (repl : List Char → List Char) : List Char → Option (List Char) → List Char
  | [], none => []
  | [], some pend => '\x7b' :: pend
  | c :: rest, none =>
    if c = '\x7b' then substLoop repl rest (some [])
    else c :: substLoop repl rest none
  | c :: rest, some pend =>
    if c = '\x7d' then
      if pend.isEmpty then '\x7b' :: '\x7d' :: substLoop repl rest none
      else repl pend ++ substLoop repl rest none
    else if c = '\x7b' then '\x7b' :: (pend ++ substLoop repl rest (some []))
    else if isWordChar c then substLoop repl rest (some (pend ++ [c]))
    else '\x7b' :: (pend ++ (c :: substLoop repl rest none))

/-- Scanner collecting, in order and with duplicates, the names of all
matches of the global regex `\{(\w+)\}` (the `formula.match(/\{(\w+)\}/g)`
step of `extractVariables`, already stripped of the braces). -/
def namesLoop : List Char → Option (List Char) → List (List Char)
  | [], _ => []
  | c :: rest, none =>
    if c = '\x7b' then namesLoop rest (some []) else namesLoop rest none
  | c :: rest, some pend =>
    if c = '\x7d' then
      if pend.isEmpty then namesLoop rest none else pend :: namesLoop rest none
    else if c = '\x7b' then namesLoop rest (some [])
    else if isWordChar c then namesLoop rest (some (pend ++ [c]))
    else namesLoop rest none

/-- Model of `[...new Set(l)]`: first occurrences survive, later
duplicates are dropped (`seen` accumulates the elements already kept). -/
def jsSetDedupAux {α : Type} [DecidableEq α] : List α → List α → List α
  | [], _ => []
  | x :: xs, seen =>
    if x ∈ seen then jsSetDedupAux xs seen else x :: jsSetDedupAux xs (x :: seen)

/-- Specification-side duplicate removal: keep each element's first
occurrence, in order of first appearance. -/
def dedupFirst {α : Type} [DecidableEq α] : List α → List α
  | [] => []
  | x :: xs => x :: dedupFirst (xs.filter (fun y => decide (y ≠ x)))
termination_by l => l.length
decreasing_by
  simp only [List.length_cons]
  exact Nat.lt_succ_of_le (List.length_filter_le _ _)

/-- Embedding of `FormulaEngine.extractVariables`: collect the `{name}`
matches, strip the braces, and deduplicate via a JS `Set`. -/
def extractVariables (formula : String) : List String :=
  jsSetDedupAux ((namesLoop formula.data none).map List.asString) []

/-- Model of a JavaScript `number`: a finite IEEE-754 double (kept as an
exact rational; rounding and overflow are not modelled), `Infinity`,
`-Infinity`, or `NaN`. -/
inductive JNum where
  | fin : ℚ → JNum
  | inf : JNum
  | ninf : JNum
  | nan : JNum
deriving DecidableEq, Repr

/-- JS addition on numbers (exact on finite values). -/
def jadd : JNum → JNum → JNum
  | .nan, _ => .nan
  | _, .nan => .nan
  | .inf, .ninf => .nan
  | .ninf, .inf => .nan
  | .inf, _ => .inf
  | _, .inf => .inf
  | .ninf, _ => .ninf
  | _, .ninf => .ninf
  | .fin a, .fin b => .fin (a + b)

/-- JS unary negation on numbers. -/
def jneg : JNum → JNum
  | .fin a => .fin (-a)
  | .inf => .ninf
  | .ninf => .inf
  | .nan => .nan

/-- JS subtraction on numbers. -/
def jsub (a b : JNum) : JNum := jadd a (jneg b)

/-- JS multiplication on numbers. -/
def jmul : JNum → JNum → JNum
  | .nan, _ => .nan
  | _, .nan => .nan
  | .inf, .inf => .inf
  | .inf, .ninf => .ninf
  | .ninf, .inf => .ninf
  | .ninf, .ninf => .inf
  | .inf, .fin b => if 0 < b then .inf else if b < 0 then .ninf else .nan
  | .fin a, .inf => if 0 < a then .inf else if a < 0 then .ninf else .nan
  | .ninf, .fin b => if 0 < b then .ninf else if b < 0 then .inf else .nan
  | .fin a, .ninf => if 0 < a then .ninf else if a < 0 then .inf else .nan
  | .fin a, .fin b => .fin (a * b)

/-- JS division on numbers; division by zero yields a signed infinity and
`0 / 0` yields `NaN` (the sign of zero itself is not modelled, so the
dividing zero is treated as `+0`). -/
def jdiv : JNum → JNum → JNum
  | .nan, _ => .nan
  | _, .nan => .nan
  | .inf, .inf => .nan
  | .inf, .ninf => .nan
  | .ninf, .inf => .nan
  | .ninf, .ninf => .nan
  | .inf, .fin b => if b < 0 then .ninf else .inf
  | .ninf, .fin b => if b < 0 then .inf else .ninf
  | .fin _, .inf => .fin 0
  | .fin _, .ninf => .fin 0
  | .fin a, .fin b =>
    if b = 0 then (if 0 < a then .inf else if a < 0 then .ninf else .nan)
    else .fin (a / b)

/-- Truncation of a rational toward zero (the rounding used by the JS `%`
operator). -/
def qtrunc (q : ℚ) : ℤ := if q < 0 then ⌈q⌉ else ⌊q⌋

/-- JS remainder `%`: `NaN` on a `NaN`/infinite dividend or zero divisor,
the dividend itself on an infinite divisor, and otherwise the exact
remainder with the sign of the dividend. -/
def jmod : JNum → JNum → JNum
  | .nan, _ => .nan
  | _, .nan => .nan
  | .inf, _ => .nan
  | .ninf, _ => .nan
  | .fin a, .inf => .fin a
  | .fin a, .ninf => .fin a
  | .fin a, .fin b =>
    if b = 0 then .nan else .fin (a - b * (qtrunc (a / b) : ℚ))

/-- The decimal digit character for `d % 10`. -/
def digitChar (d : ℕ) : Char := Char.ofNat (48 + d % 10)

/-- Decimal digits of `n`, least significant first (fueled; fuel `n + 1`
always suffices since the value shrinks by a factor of ten per step). -/
def natDigitsRevLoop : ℕ → ℕ → List Char
  | 0, _ => []
  | fuel + 1, n =>
    if n = 0 then [] else digitChar (n % 10) :: natDigitsRevLoop fuel (n / 10)

/-- Decimal rendering of a natural number, most significant digit
first. -/
def natDigits (n : ℕ) : List Char :=
  if n = 0 then ['0'] else (natDigitsRevLoop (n + 1) n).reverse

/-- Decimal digits of the fractional part `f` (with `0 ≤ f < 1`), at most
`fuel` of them; stops early when the expansion terminates. -/
def fracDigitsLoop : ℕ → ℚ → List Char
  | 0, _ => []
  | k + 1, f =>
    if f = 0 then []
    else
      let f10 := f * 10
      let d := (⌊f10⌋ : ℤ).toNat
      digitChar d :: fracDigitsLoop k (f10 - (d : ℚ))

/-- Model of the ECMAScript Number-to-String conversion on a nonnegative
value.  Integers follow the ECMA-262 algorithm exactly, including the
switch to exponent notation (`1e+21`) once the decimal expansion has more
than 21 digits; terminating fractional expansions are rendered exactly
(to 30 digits).  The small-magnitude (`< 1e-6`) exponent rule and the
IEEE shortest-round-trip rounding of non-terminating binary fractions are
not modelled; no claim exercises them. -/
def jsNumToStringNN (q : ℚ) : List Char :=
  if q.den = 1 then
    let n := q.num.toNat
    if n = 0 then ['0']
    else
      let ds := natDigits n
      if ds.length ≤ 21 then ds
      else
        let s := (ds.reverse.dropWhile (fun c => c = '0')).reverse
        let expo := ds.length - 1
        match s with
        | [] => ['0']
        | d :: restd =>
          d :: (if restd.isEmpty then [] else '.' :: restd) ++
            ('e' :: '+' :: natDigits expo)
  else
    let ip := (⌊q⌋ : ℤ).toNat
    let fd := fracDigitsLoop 30 (q - (⌊q⌋ : ℚ))
    let fd' := (fd.reverse.dropWhile (fun c => c = '0')).reverse
    natDigits ip ++ '.' :: (if fd'.isEmpty then ['0'] else fd')

/-- Model of `String(value)` for a finite JS number. -/
def jsNumToString (q : ℚ) : List Char :=
  if q < 0 then '-' :: jsNumToStringNN (-q) else jsNumToStringNN q

/-- Embedding of `ALLOWED_MATH_FUNCTIONS` (a JS `Set`; only membership is
used). -/
def ALLOWED_MATH_FUNCTIONS : List String :=
  ["abs", "ceil", "floor", "round", "trunc",
   "max", "min", "pow", "sqrt", "cbrt",
   "log", "log10", "log2", "exp",
   "sin", "cos", "tan", "asin", "acos", "atan", "atan2",
   "sinh", "cosh", "tanh",
   "sign", "random",
   "PI", "E"]

/-- Embedding of `isValidMathCall`. -/
def isValidMathCall (funcName : String) : Bool :=
  ALLOWED_MATH_FUNCTIONS.contains funcName

/-- The literal `Math.` searched for by the regex `Math\.(\w+)`. -/
def mathLit : List Char := ['M', 'a', 't', 'h', '.']

/-- Scanner for `expression.replace(/Math\.\w+/g, '0')`: each leftmost
match of `Math.` followed by at least one word character is replaced by
`'0'`.  The state `k ≤ 4` counts literal characters of `Math.` matched so
far, `k = 5` means the literal is fully matched and the first word
character is awaited, and `k = 6` means a word-character run is being
skipped (its replacement `'0'` already emitted).  On a mismatch the
matched prefix is emitted verbatim; since `M` occurs in `Math.` only at
the start, restarting at the mismatching character is equivalent to the
regex engine's one-character advance. -/
def removeMathLoop : List Char → ℕ → List Char
  | [], k => if k ≤ 5 then mathLit.take k else []
  | c :: rest, k =>
    if k = 6 then
      if isWordChar c then removeMathLoop rest 6
      else if c = 'M' then removeMathLoop rest 1
      else c :: removeMathLoop rest 0
    else if k = 5 then
      if isWordChar c then '0' :: removeMathLoop rest 6
      else mathLit ++ (c :: removeMathLoop rest 0)
    else
      if c = mathLit.getD k ' ' then removeMathLoop rest (k + 1)
      else mathLit.take k ++
        (if c = 'M' then removeMathLoop rest 1 else c :: removeMathLoop rest 0)

/-- Embedding of the `expression.replace(/Math\.\w+/g, '0')` step. -/
def removeMathCalls (s : List Char) : List Char := removeMathLoop s 0

/-- Scanner for `expression.match(/Math\.(\w+)/g)`, collecting the word
run after each matched `Math.` (the source strips the `Math.` prefix of
each match with `call.replace('Math.', '')`, which yields exactly this
word run).  Same state convention as `removeMathLoop`, with `pend`
accumulating the current function name in state 6. -/
def mathCallsLoop : List Char → ℕ → List Char → List (List Char)
  | [], k, pend => if k = 6 then [pend] else []
  | c :: rest, k, pend =>
    if k = 6 then
      if isWordChar c then mathCallsLoop rest 6 (pend ++ [c])
      else pend ::
        (if c = 'M' then mathCallsLoop rest 1 [] else mathCallsLoop rest 0 [])
    else if k = 5 then
      if isWordChar c then mathCallsLoop rest 6 [c]
      else mathCallsLoop rest 0 []
    else
      if c = mathLit.getD k ' ' then mathCallsLoop rest (k + 1) []
      else if c = 'M' then mathCallsLoop rest 1 []
      else mathCallsLoop rest 0 []

/-- The function names of all `Math.xxx` calls in the expression. -/
def mathCallNames (s : List Char) : List String :=
  (mathCallsLoop s 0 []).map List.asString

/-- Boolean substring test: `hasSubstr p s` holds iff `p` occurs
contiguously in `s`. -/
def hasSubstr (p : List Char) : List Char → Bool
  | [] => p.isEmpty
  | c :: rest => p.isPrefixOf (c :: rest) || hasSubstr p rest

/-- ASCII lowercasing (model of the `i` regex flag). -/
def lowerStr (s : List Char) : List Char := s.map Char.toLower

/-- Case-insensitive substring test. -/
def ciHas (s : List Char) (pat : List Char) : Bool :=
  hasSubstr (lowerStr pat) (lowerStr s)

/-- Scanner for the regex `\.\s*\(` (method chaining). -/
def dotParenHit : List Char → Bool
  | [] => false
  | c :: rest =>
    (c = '.' && ((rest.dropWhile isWsChar).head? == some '(')) || dotParenHit rest

/-- Scanner for the regex `\[\s*['"`]` (bracket notation with a string
quote). -/
def bracketQuoteHit : List Char → Bool
  | [] => false
  | c :: rest =>
    (c = '[' &&
      (match (rest.dropWhile isWsChar).head? with
       | some q => q = '\'' || q = '"' || q = Char.ofNat 96
       | none => false)) || bracketQuoteHit rest

/-- Scanner for the regex `\[\s*\w+\s*\]` (bracket notation). -/
def bracketWordHit : List Char → Bool
  | [] => false
  | c :: rest =>
    (c = '[' &&
      (let r1 := rest.dropWhile isWsChar
       !(r1.takeWhile isWordChar).isEmpty &&
         (((r1.dropWhile isWordChar).dropWhile isWsChar).head? == some ']'))) ||
    bracketWordHit rest

/-- Embedding of the `DANGEROUS_PATTERNS` test: true iff any of the
denylisted regexes matches the expression.  Alternation regexes such as
`/window|document|global|process|this/i` are case-insensitive substring
tests of each alternative. -/
def dangerousHit (s : List Char) : Bool :=
  ciHas s "constructor".data || ciHas s "prototype".data || ciHas s "__proto__".data ||
  bracketQuoteHit s || bracketWordHit s || dotParenHit s ||
  s.contains (Char.ofNat 96) || s.contains '\\' ||
  hasSubstr ['$', '\x7b'] s ||
  ciHas s "import".data || ciHas s "require".data || ciHas s "eval".data ||
  ciHas s "Function".data ||
  ciHas s "window".data || ciHas s "document".data || ciHas s "global".data ||
  ciHas s "process".data || ciHas s "this".data ||
  ciHas s "fetch".data || ciHas s "XMLHttpRequest".data || ciHas s "WebSocket".data ||
  ciHas s "localStorage".data || ciHas s "sessionStorage".data || ciHas s "cookie".data

/-- The character class `[\d\s+\-*/().,%]` of the post-`Math`-removal
check. -/
def isExprChar (c : Char) : Bool :=
  c.isDigit || isWsChar c || c = '+' || c = '-' || c = '*' || c = '/' ||
  c = '(' || c = ')' || c = '.' || c = ',' || c = '%'

/-- Embedding of the test `/^[\d\s+\-*/().,%]+$/.test(s)` (note the `+`:
the empty string fails). -/
def charClassOk (s : List Char) : Bool := !s.isEmpty && s.all isExprChar

/-- Characters of the class `[+*/]` of the operator-sequence check. -/
def isSeqOpChar (c : Char) : Bool := c = '+' || c = '*' || c = '/'

/-- Scanner for the regex `[+*/]{2,}|[+*/]\s*[+*/]` (which reduces to:
two characters of `[+*/]` separated only by whitespace).  `sawOp` records
whether the previous non-whitespace character was in `[+*/]`. -/
def opSeqLoop : List Char → Bool → Bool
  | [], _ => false
  | c :: rest, sawOp =>
    if isSeqOpChar c then (sawOp || opSeqLoop rest true)
    else if isWsChar c then opSeqLoop rest sawOp
    else opSeqLoop rest false

/-- Embedding of the operator-sequence test of `sanitizeExpression`. -/
def opSeqHit (s : List Char) : Bool := opSeqLoop s false

/-- Embedding of `sanitizeExpression`: the four checks in source order;
`none` models the `null` of the source. -/
def sanitizeExpression (expression : List Char) : Option (List Char) :=
  if dangerousHit expression then none
  else if (mathCallNames expression).any (fun n => !isValidMathCall n) then none
  else if !charClassOk (removeMathCalls expression) then none
  else if opSeqHit expression then none
  else some expression

/-! ### JavaScript evaluation of a sanitized expression

The source evaluates a sanitized expression with
`new Function('Math', '"use strict"; return (<expr>);')` applied to a
frozen object holding the whitelisted `Math` members.  We model the
relevant fragment of JavaScript: lexing (including the strict-mode ban on
legacy octal literals and the maximal-munch `++`/`--` punctuators, which
are always syntax errors in this expression grammar), the expression
grammar (comma operator, additive, multiplicative, unary `+`/`-`, calls,
parentheses), and evaluation over `JNum` with an explicit stream of
values for `Math.random`.  A lexer or parser failure models the
`SyntaxError` thrown by `new Function`; a call of a non-function models
the runtime `TypeError`; both are caught by the source and mapped to 0. -/

/-- Tokens of the sanitized-expression fragment of JavaScript. -/
inductive Tok where
  | num : ℚ → Tok
  | lparen : Tok
  | rparen : Tok
  | comma : Tok
  | plus : Tok
  | minus : Tok
  | star : Tok
  | slash : Tok
  | percent : Tok
  | mathProp : String → Tok
deriving DecidableEq, Repr

/-- Numeric value of a digit string. -/
def digitsValN (ds : List Char) : ℕ :=
  ds.foldl (fun acc c => acc * 10 + (c.toNat - 48)) 0

/-- Fueled lexer; consumes at least one character per step, so fuel equal
to the length of the input plus one suffices.  `none` models a
`SyntaxError` from `new Function`. -/
def lexLoop : ℕ → List Char → Option (List Tok)
  | 0, _ => none
  | _ + 1, [] => some []
  | fuel + 1, c :: rest =>
    if isWsChar c then lexLoop fuel rest
    else if c = '(' then (lexLoop fuel rest).map (Tok.lparen :: ·)
    else if c = ')' then (lexLoop fuel rest).map (Tok.rparen :: ·)
    else if c = ',' then (lexLoop fuel rest).map (Tok.comma :: ·)
    else if c = '*' then (lexLoop fuel rest).map (Tok.star :: ·)
    else if c = '/' then (lexLoop fuel rest).map (Tok.slash :: ·)
    else if c = '%' then (lexLoop fuel rest).map (Tok.percent :: ·)
    else if c = '+' then
      match rest with
      | '+' :: _ => none
      | _ => (lexLoop fuel rest).map (Tok.plus :: ·)
    else if c = '-' then
      match rest with
      | '-' :: _ => none
      | _ => (lexLoop fuel rest).map (Tok.minus :: ·)
    else if c.isDigit then
      let ds := (c :: rest).takeWhile Char.isDigit
      let r1 := (c :: rest).dropWhile Char.isDigit
      if 1 < ds.length && c = '0' then none
      else
        match r1 with
        | '.' :: r2 =>
          let fs := r2.takeWhile Char.isDigit
          let r3 := r2.dropWhile Char.isDigit
          (lexLoop fuel r3).map
            (Tok.num ((digitsValN ds : ℚ) + (digitsValN fs : ℚ) / 10 ^ fs.length) :: ·)
        | _ => (lexLoop fuel r1).map (Tok.num (digitsValN ds : ℚ) :: ·)
    else if c = '.' then
      match rest with
      | d :: _ =>
        if d.isDigit then
          let fs := rest.takeWhile Char.isDigit
          let r2 := rest.dropWhile Char.isDigit
          (lexLoop fuel r2).map
            (Tok.num ((digitsValN fs : ℚ) / 10 ^ fs.length) :: ·)
        else none
      | [] => none
    else if c = 'M' then
      match rest with
      | 'a' :: 't' :: 'h' :: '.' :: r2 =>
        let w := r2.takeWhile isWordChar
        let r3 := r2.dropWhile isWordChar
        if w.isEmpty then none
        else (lexLoop fuel r3).map (Tok.mathProp w.asString :: ·)
      | _ => none
    else none

/-- Lexing of a sanitized expression. -/
def tokenize (s : List Char) : Option (List Tok) := lexLoop (s.length + 1) s

/-- Abstract syntax of the sanitized-expression fragment. -/
inductive Expr where
  | num : ℚ → Expr
  | mathProp : String → Expr
  | add : Expr → Expr → Expr
  | sub : Expr → Expr → Expr
  | mul : Expr → Expr → Expr
  | div : Expr → Expr → Expr
  | mod : Expr → Expr → Expr
  | neg : Expr → Expr
  | pos : Expr → Expr
  | seq : Expr → Expr → Expr
  | call : Expr → List Expr → Expr
deriving Repr

mutual

/-- Comma-operator level of the expression grammar. -/
def parseExpr : ℕ → List Tok → Option (Expr × List Tok)
  | 0, _ => none
  | fuel + 1, ts => do
    let (e, ts1) ← parseAdd fuel ts
    parseExprTail fuel e ts1

/-- Remaining `, assignment` clauses of a comma expression. -/
def parseExprTail : ℕ → Expr → List Tok → Option (Expr × List Tok)
  | 0, _, _ => none
  | fuel + 1, e, Tok.comma :: ts => do
    let (e2, ts1) ← parseAdd fuel ts
    parseExprTail fuel (Expr.seq e e2) ts1
  | _ + 1, e, ts => some (e, ts)

/-- Additive level. -/
def parseAdd : ℕ → List Tok → Option (Expr × List Tok)
  | 0, _ => none
  | fuel + 1, ts => do
    let (e, ts1) ← parseMul fuel ts
    parseAddTail fuel e ts1

/-- Remaining `± term` clauses of an additive expression. -/
def parseAddTail : ℕ → Expr → List Tok → Option (Expr × List Tok)
  | 0, _, _ => none
  | fuel + 1, e, Tok.plus :: ts => do
    let (e2, ts1) ← parseMul fuel ts
    parseAddTail fuel (Expr.add e e2) ts1
  | fuel + 1, e, Tok.minus :: ts => do
    let (e2, ts1) ← parseMul fuel ts
    parseAddTail fuel (Expr.sub e e2) ts1
  | _ + 1, e, ts => some (e, ts)

/-- Multiplicative level. -/
def parseMul : ℕ → List Tok → Option (Expr × List Tok)
  | 0, _ => none
  | fuel + 1, ts => do
    let (e, ts1) ← parseUnary fuel ts
    parseMulTail fuel e ts1

/-- Remaining `*`, `/`, `%` clauses of a multiplicative expression. -/
def parseMulTail : ℕ → Expr → List Tok → Option (Expr × List Tok)
  | 0, _, _ => none
  | fuel + 1, e, Tok.star :: ts => do
    let (e2, ts1) ← parseUnary fuel ts
    parseMulTail fuel (Expr.mul e e2) ts1
  | fuel + 1, e, Tok.slash :: ts => do
    let (e2, ts1) ← parseUnary fuel ts
    parseMulTail fuel (Expr.div e e2) ts1
  | fuel + 1, e, Tok.percent :: ts => do
    let (e2, ts1) ← parseUnary fuel ts
    parseMulTail fuel (Expr.mod e e2) ts1
  | _ + 1, e, ts => some (e, ts)

/-- Unary level (`+`/`-` prefixes). -/
def parseUnary : ℕ → List Tok → Option (Expr × List Tok)
  | 0, _ => none
  | fuel + 1, Tok.plus :: ts => do
    let (e, ts1) ← parseUnary fuel ts
    some (Expr.pos e, ts1)
  | fuel + 1, Tok.minus :: ts => do
    let (e, ts1) ← parseUnary fuel ts
    some (Expr.neg e, ts1)
  | fuel + 1, ts => parseCallLevel fuel ts

/-- Call level: a primary followed by zero or more argument lists. -/
def parseCallLevel : ℕ → List Tok → Option (Expr × List Tok)
  | 0, _ => none
  | fuel + 1, ts => do
    let (e, ts1) ← parsePrimary fuel ts
    parseCallTail fuel e ts1

/-- Remaining `(args)` clauses after a primary. -/
def parseCallTail : ℕ → Expr → List Tok → Option (Expr × List Tok)
  | 0, _, _ => none
  | fuel + 1, e, Tok.lparen :: ts => do
    let (args, ts1) ← parseArgs fuel ts
    parseCallTail fuel (Expr.call e args) ts1
  | _ + 1, e, ts => some (e, ts)

/-- Argument list of a call, up to and including the closing parenthesis
(ES2017 allows a trailing comma). -/
def parseArgs : ℕ → List Tok → Option (List Expr × List Tok)
  | 0, _ => none
  | _ + 1, Tok.rparen :: ts => some ([], ts)
  | fuel + 1, ts => do
    let (a, ts1) ← parseAdd fuel ts
    parseArgsTail fuel [a] ts1

/-- Remaining arguments after the first. -/
def parseArgsTail : ℕ → List Expr → List Tok → Option (List Expr × List Tok)
  | 0, _, _ => none
  | _ + 1, acc, Tok.rparen :: ts => some (acc.reverse, ts)
  | _ + 1, acc, Tok.comma :: Tok.rparen :: ts => some (acc.reverse, ts)
  | fuel + 1, acc, Tok.comma :: ts => do
    let (a, ts1) ← parseAdd fuel ts
    parseArgsTail fuel (a :: acc) ts1
  | _ + 1, _, _ => none

/-- Primary expressions: numeric literal, `Math.name`, parenthesized
expression. -/
def parsePrimary : ℕ → List Tok → Option (Expr × List Tok)
  | 0, _ => none
  | _ + 1, Tok.num q :: ts => some (Expr.num q, ts)
  | _ + 1, Tok.mathProp f :: ts => some (Expr.mathProp f, ts)
  | fuel + 1, Tok.lparen :: ts => do
    let (e, ts1) ← parseExpr fuel ts
    match ts1 with
    | Tok.rparen :: ts2 => some (e, ts2)
    | _ => none
  | _ + 1, _ => none

end

/-- Parse a complete token list as one expression (the body of
`return (<expr>);`); every call in the descent consumes fuel, and the
descent between two token consumptions is at most eight levels deep, so
the chosen fuel suffices for every input. -/
def parseTop (ts : List Tok) : Option Expr :=
  match parseExpr (10 * ts.length + 20) ts with
  | some (e, []) => some e
  | _ => none

/-- The exact value of the IEEE-754 double `Math.PI`. -/
def piRat : ℚ := 884279719003555 / 281474976710656

/-- The exact value of the IEEE-754 double `Math.E`. -/
def eRat : ℚ := 6121026514868073 / 2251799813685248

/-- Runtime values of the sanitized-expression fragment: numbers, the
whitelisted function members of the frozen `Math` object, and
`undefined` (an absent `Math` member). -/
inductive JVal where
  | num : JNum → JVal
  | fnVal : String → JVal
  | undefVal : JVal
deriving DecidableEq, Repr

/-- Numeric coercion of an operand.  `ToNumber` of a function object or
of `undefined` is `NaN`; the one place JS deviates (binary `+` with a
function object concatenates strings) also produces a non-number, which
the engine's final `typeof`/finiteness check maps to 0 exactly as `NaN`
is, so `NaN` is an observably faithful model there too. -/
def toNum : JVal → JNum
  | .num j => j
  | _ => .nan

/-- Value of `Math.name` on the frozen whitelisted `Math` object. -/
def propVal (name : String) : JVal :=
  if name = "PI" then .num (.fin piRat)
  else if name = "E" then .num (.fin eRat)
  else if ALLOWED_MATH_FUNCTIONS.contains name then .fnVal name
  else .undefVal

/-- Apply a rational function to a finite value, keeping infinities. -/
def jUn (f : ℚ → ℚ) : JNum → JNum
  | .fin a => .fin (f a)
  | .inf => .inf
  | .ninf => .ninf
  | .nan => .nan

/-- `Math.max` of two values (`NaN` propagates). -/
def jmax2 : JNum → JNum → JNum
  | .nan, _ => .nan
  | _, .nan => .nan
  | .inf, _ => .inf
  | _, .inf => .inf
  | .ninf, b => b
  | a, .ninf => a
  | .fin a, .fin b => .fin (max a b)

/-- `Math.min` of two values (`NaN` propagates). -/
def jmin2 : JNum → JNum → JNum
  | .nan, _ => .nan
  | _, .nan => .nan
  | .ninf, _ => .ninf
  | _, .ninf => .ninf
  | .inf, b => b
  | a, .inf => a
  | .fin a, .fin b => .fin (min a b)

/-- Exact rational square root, when it exists. -/
def qSqrt (q : ℚ) : Option ℚ :=
  if q < 0 then none
  else
    let rn := Nat.sqrt q.num.toNat
    let rd := Nat.sqrt q.den
    if rn * rn = q.num.toNat ∧ rd * rd = q.den then some ((rn : ℚ) / (rd : ℚ))
    else none

/-- Does `n` equal `b ^ k` for some `k`?  Fueled trial division. -/
def powExpOf (b : ℕ) : ℕ → ℕ → Option ℕ
  | 0, _ => none
  | fuel + 1, n =>
    if n = 1 then some 0
    else if n % b = 0 && n ≠ 0 then (powExpOf b fuel (n / b)).map (· + 1)
    else none

/-- Exact base-`b` logarithm of a positive rational, when it exists. -/
def qLogExact (b : ℕ) (q : ℚ) : Option ℤ :=
  if q.den = 1 then (powExpOf b (q.num.toNat + 1) q.num.toNat).map Int.ofNat
  else if q.num = 1 then (powExpOf b (q.den + 1) q.den).map (fun k => -(k : ℤ))
  else none

/-- Exact value of `a ^ b` for `0 ≤ a` and fractional `b`, in the cases
the model represents exactly (trivial bases, and half-integer exponents
of exact squares); other cases are modelled as `NaN`. -/
def qPowExact (a : ℚ) (b : ℚ) : Option ℚ :=
  if a = 0 then some 0
  else if a = 1 then some 1
  else if b.den = 2 then (qSqrt a).map (fun r => r ^ b.num)
  else none

/-- `Math.pow` semantics on the model numbers. -/
def jpow (x y : JNum) : JNum :=
  match y with
  | .nan => .nan
  | .inf =>
    match x with
    | .nan => .nan
    | .inf => .inf
    | .ninf => .inf
    | .fin a => if a = 1 ∨ a = -1 then .nan else if 1 < |a| then .inf else .fin 0
  | .ninf =>
    match x with
    | .nan => .nan
    | .inf => .fin 0
    | .ninf => .fin 0
    | .fin a => if a = 1 ∨ a = -1 then .nan else if 1 < |a| then .fin 0 else .inf
  | .fin b =>
    if b = 0 then .fin 1
    else
      match x with
      | .nan => .nan
      | .inf => if 0 < b then .inf else .fin 0
      | .ninf =>
        if 0 < b then (if b.den = 1 ∧ b.num % 2 = 1 then .ninf else .inf)
        else .fin 0
      | .fin a =>
        if b.den = 1 then
          if a = 0 ∧ b.num < 0 then .inf else .fin (a ^ b.num)
        else if a < 0 then .nan
        else
          match qPowExact a b with
          | some r => .fin r
          | none => .nan

/-- Semantics of the whitelisted `Math` functions on already-coerced
numeric arguments (missing arguments are `undefined`, i.e. `NaN`; extra
arguments are ignored except by the variadic `max`/`min`).  Values that
are not exactly representable in the rational model — irrational square
and cube roots, transcendental functions away from their exact special
points — are modelled as `NaN`; no claim depends on such values, and the
engine normalizes both `NaN` and those finite doubles' failure modes
through the same code path only when non-finite, so the approximation is
confined to function values no claim evaluates.  `none` models calling a
non-function member (`PI`/`E`), a runtime `TypeError`. -/
def mathFnSem (name : String) (args : List JNum) : Option JNum :=
  let x := args.getD 0 .nan
  let y := args.getD 1 .nan
  if name = "abs" then
    some (match x with
          | .fin a => .fin |a| | .inf => .inf | .ninf => .inf | .nan => .nan)
  else if name = "ceil" then some (jUn (fun a => (⌈a⌉ : ℚ)) x)
  else if name = "floor" then some (jUn (fun a => (⌊a⌋ : ℚ)) x)
  else if name = "round" then some (jUn (fun a => (⌊a + 1/2⌋ : ℚ)) x)
  else if name = "trunc" then some (jUn (fun a => (qtrunc a : ℚ)) x)
  else if name = "sign" then
    some (match x with
          | .fin a => .fin (if 0 < a then 1 else if a < 0 then -1 else 0)
          | .inf => .fin 1 | .ninf => .fin (-1) | .nan => .nan)
  else if name = "max" then some (args.foldl jmax2 .ninf)
  else if name = "min" then some (args.foldl jmin2 .inf)
  else if name = "pow" then some (jpow x y)
  else if name = "sqrt" then
    some (match x with
          | .fin a => (match qSqrt a with | some r => .fin r | none => .nan)
          | .inf => .inf | .ninf => .nan | .nan => .nan)
  else if name = "cbrt" then
    some (match x with
          | .fin a => if a = 0 ∨ a = 1 then .fin a else if a = -1 then .fin (-1) else .nan
          | .inf => .inf | .ninf => .ninf | .nan => .nan)
  else if name = "log" then
    some (match x with
          | .fin a => if a < 0 then .nan else if a = 0 then .ninf
                      else if a = 1 then .fin 0 else .nan
          | .inf => .inf | .ninf => .nan | .nan => .nan)
  else if name = "log10" then
    some (match x with
          | .fin a => if a < 0 then .nan else if a = 0 then .ninf
                      else (match qLogExact 10 a with | some k => .fin k | none => .nan)
          | .inf => .inf | .ninf => .nan | .nan => .nan)
  else if name = "log2" then
    some (match x with
          | .fin a => if a < 0 then .nan else if a = 0 then .ninf
                      else (match qLogExact 2 a with | some k => .fin k | none => .nan)
          | .inf => .inf | .ninf => .nan | .nan => .nan)
  else if name = "exp" then
    some (match x with
          | .fin a => if a = 0 then .fin 1 else .nan
          | .inf => .inf | .ninf => .fin 0 | .nan => .nan)
  else if name = "sin" then
    some (match x with
          | .fin a => if a = 0 then .fin 0 else .nan
          | _ => .nan)
  else if name = "cos" then
    some (match x with
          | .fin a => if a = 0 then .fin 1 else .nan
          | _ => .nan)
  else if name = "tan" then
    some (match x with
          | .fin a => if a = 0 then .fin 0 else .nan
          | _ => .nan)
  else if name = "asin" then
    some (match x with
          | .fin a => if a = 0 then .fin 0 else .nan
          | _ => .nan)
  else if name = "acos" then
    some (match x with
          | .fin a => if a = 1 then .fin 0 else .nan
          | _ => .nan)
  else if name = "atan" then
    some (match x with
          | .fin a => if a = 0 then .fin 0 else .nan
          | _ => .nan)
  else if name = "atan2" then
    some (match x, y with
          | .fin a, .fin b => if a = 0 ∧ 0 ≤ b then .fin 0 else .nan
          | .fin a, .inf => if a = 0 then .fin 0 else .nan
          | _, _ => .nan)
  else if name = "sinh" then
    some (match x with
          | .fin a => if a = 0 then .fin 0 else .nan
          | .inf => .inf | .ninf => .ninf | .nan => .nan)
  else if name = "cosh" then
    some (match x with
          | .fin a => if a = 0 then .fin 1 else .nan
          | .inf => .inf | .ninf => .inf | .nan => .nan)
  else if name = "tanh" then
    some (match x with
          | .fin a => if a = 0 then .fin 0 else .nan
          | .inf => .fin 1 | .ninf => .fin (-1) | .nan => .nan)
  else none

mutual

/-- Fueled evaluation of an expression; `σ` is the stream of values
consumed by `Math.random`.  `none` models a runtime error (calling a
non-function).  Fuel is decremented once per constructor descended, so
any fuel exceeding the expression depth is adequate. -/
def evalA : ℕ → Expr → List ℚ → Option (JVal × List ℚ)
  | 0, _, _ => none
  | _ + 1, .num q, σ => some (.num (.fin q), σ)
  | _ + 1, .mathProp f, σ => some (propVal f, σ)
  | fuel + 1, .add a b, σ => do
    let (va, σ1) ← evalA fuel a σ
    let (vb, σ2) ← evalA fuel b σ1
    some (.num (jadd (toNum va) (toNum vb)), σ2)
  | fuel + 1, .sub a b, σ => do
    let (va, σ1) ← evalA fuel a σ
    let (vb, σ2) ← evalA fuel b σ1
    some (.num (jsub (toNum va) (toNum vb)), σ2)
  | fuel + 1, .mul a b, σ => do
    let (va, σ1) ← evalA fuel a σ
    let (vb, σ2) ← evalA fuel b σ1
    some (.num (jmul (toNum va) (toNum vb)), σ2)
  | fuel + 1, .div a b, σ => do
    let (va, σ1) ← evalA fuel a σ
    let (vb, σ2) ← evalA fuel b σ1
    some (.num (jdiv (toNum va) (toNum vb)), σ2)
  | fuel + 1, .mod a b, σ => do
    let (va, σ1) ← evalA fuel a σ
    let (vb, σ2) ← evalA fuel b σ1
    some (.num (jmod (toNum va) (toNum vb)), σ2)
  | fuel + 1, .neg a, σ => do
    let (va, σ1) ← evalA fuel a σ
    some (.num (jneg (toNum va)), σ1)
  | fuel + 1, .pos a, σ => do
    let (va, σ1) ← evalA fuel a σ
    some (.num (toNum va), σ1)
  | fuel + 1, .seq a b, σ => do
    let (_, σ1) ← evalA fuel a σ
    evalA fuel b σ1
  | fuel + 1, .call f args, σ => do
    let (vf, σ1) ← evalA fuel f σ
    let (vs, σ2) ← evalArgs fuel args σ1
    match vf with
    | .fnVal name =>
      if name = "random" then
        match σ2 with
        | [] => some (.num (.fin 0), [])
        | r :: σ3 => some (.num (.fin r), σ3)
      else (mathFnSem name (vs.map toNum)).map (fun j => (.num j, σ2))
    | _ => none

/-- Left-to-right evaluation of an argument list. -/
def evalArgs : ℕ → List Expr → List ℚ → Option (List JVal × List ℚ)
  | 0, _, _ => none
  | _ + 1, [], σ => some ([], σ)
  | fuel + 1, e :: es, σ => do
    let (v, σ1) ← evalA fuel e σ
    let (vs, σ2) ← evalArgs fuel es σ1
    some (v :: vs, σ2)

end

/-- Replacement performed for one `{name}` token during evaluation:
undefined variables and non-finite values substitute the literal `0`,
finite values substitute their `String(value)` rendering. -/
def substRepl (v : String → Option JNum) (name : List Char) : List Char :=
  match v name.asString with
  | none => ['0']
  | some (.fin q) => jsNumToString q
  | some _ => ['0']

/-- Step 1 of `FormulaEngine.evaluate`: substitute every `{name}` token. -/
def substituteVars (v : String → Option JNum) (f : List Char) : List Char :=
  substLoop (substRepl v) f none

/-- Embedding of `FormulaEngine.evaluate` (the sanitizer-based version):
trim check, variable substitution, sanitization, evaluation in the
restricted scope, and normalization of every failure and every
non-finite result to 0.  `v` is `this.variables`; `rnd` is the stream of
values produced by `Math.random`. -/
def evaluate (formula : String) (v : String → Option JNum) (rnd : List ℚ) : ℚ :=
  if (jsTrim formula.data).isEmpty then 0
  else
    let expression := substituteVars v formula.data
    match sanitizeExpression expression with
    | none => 0
    | some sanitized =>
      match tokenize sanitized with
      | none => 0
      | some ts =>
        match parseTop ts with
        | none => 0
        | some ast =>
          match evalA (sanitized.length + 1) ast rnd with
          | some (.num (.fin q), _) => q
          | _ => 0

/-- Embedding of `FormulaEngine.validate`: substitute `'1'` for every
`{name}` token, run the sanitizer, then check that `new Function` can
parse the result; returns the `valid` flag. -/
def validate (formula : String) : Bool :=
  match sanitizeExpression (substLoop (fun _ => ['1']) formula.data none) with
  | none => false
  | some sanitized =>
    match tokenize sanitized with
    | none => false
    | some ts => (parseTop ts).isSome

/-! ### Formatting utilities

`formatNumber` uses `Intl.NumberFormat('de-DE', {minimumFractionDigits:
0, maximumFractionDigits: decimals})`, and `formatCurrency` the same with
`style: 'currency', currency: 'EUR'` and zero fraction digits.  We model
the `de-DE` formatter: rounding half away from zero (ECMA-402's default
`halfExpand` mode), `.` as thousands separator, `,` as decimal separator,
trailing fraction zeros stripped (`minimumFractionDigits: 0`), and for
currency the number followed by a no-break space and `€`. -/

/-- Insert the `de-DE` thousands separator into a reversed digit list
(`k` counts the digits remaining in the current group of three). -/
def groupRev : List Char → ℕ → List Char
  | [], _ => []
  | c :: rest, 0 => '.' :: c :: groupRev rest 2
  | c :: rest, k + 1 => c :: groupRev rest k

/-- Decimal rendering of a natural number with `de-DE` grouping. -/
def deDEInt (n : ℕ) : List Char :=
  (groupRev (natDigits n).reverse 3).reverse

/-- Model of `Intl.NumberFormat('de-DE', {minimumFractionDigits: 0,
maximumFractionDigits: maxFrac}).format(v)`. -/
def intlDeDE (maxFrac : ℕ) (v : ℚ) : List Char :=
  let neg := v < 0
  let scaled := (⌊|v| * 10 ^ maxFrac + 1/2⌋ : ℤ).toNat
  let ip := scaled / 10 ^ maxFrac
  let fp := scaled % 10 ^ maxFrac
  let fracDs :=
    if fp = 0 then []
    else
      let raw := natDigits fp
      let padded := List.replicate (maxFrac - raw.length) '0' ++ raw
      (padded.reverse.dropWhile (fun c => c = '0')).reverse
  (if neg then ['-'] else []) ++ deDEInt ip ++
    (if fracDs.isEmpty then [] else ',' :: fracDs)

/-- Embedding of `formatNumber` (default `decimals = 1`). -/
def formatNumber (value : ℚ) (decimals : ℕ := 1) : String :=
  (intlDeDE decimals value).asString

/-- Embedding of `formatCurrency` (zero-decimal EUR; `de-DE` places the
currency sign after the number, separated by a no-break space). -/
def formatCurrency (value : ℚ) : String :=
  (intlDeDE 0 value ++ [Char.ofNat 160, '€']).asString

/-- Embedding of `formatPercent`. -/
def formatPercent (value : ℚ) : String :=
  formatNumber value 0 ++ "%"

/-- The `format` field of a result block. -/
inductive ValueFormat where
  | number : ValueFormat
  | currency : ValueFormat
  | percent : ValueFormat
deriving DecidableEq, Repr

/-- Embedding of `formatValue`. -/
def formatValue (value : ℚ) (format : ValueFormat) : String :=
  match format with
  | .currency => formatCurrency value
  | .percent => formatPercent value
  | .number => formatNumber value

/-! ### The calculator store

Model of the zustand store of `calculatorStore.ts`, restricted to the
pieces the claims exercise: the block list, the store's `variables`
record, and the `FormulaEngine` instance's own `variables` record
(`engineVars`), which `store.evaluate` consults.  `engine.setVariables`
spreads its argument over the engine's existing record (a merge), while
`engine.setVariable` assigns one key. -/

/-- Block kinds. -/
inductive BType where
  | text | input | slider | result | chart | comparison
deriving DecidableEq, Repr

/-- A block, restricted to the fields `updateBlock`'s variable handling
reads (`id`, `type`, `variableName`, `defaultValue`); the remaining
fields of the various block interfaces do not influence the claims. -/
structure SBlock where
  id : String
  btype : BType
  variableName : String
  defaultValue : ℚ
deriving DecidableEq, Repr

/-- The `updates : Partial<Block>` argument of `updateBlock`, restricted
to the two fields whose presence (`'variableName' in updates`,
`'defaultValue' in updates`) the source tests. -/
structure BlockUpdates where
  variableName? : Option String := none
  defaultValue? : Option ℚ := none

/-- The store state: blocks, the store's `variables` record (field
`vars`), and the engine's `variables` record (field `engineVars`). -/
structure StoreState where
  blocks : List SBlock
  vars : String → Option ℚ
  engineVars : String → Option ℚ

/-- Record update `{...m, [k]: v}` / `engine.setVariable`. -/
def mapInsert (m : String → Option ℚ) (k : String) (v : ℚ) : String → Option ℚ :=
  fun n => if n = k then some v else m n

/-- Record deletion `delete m[k]`. -/
def mapDelete (m : String → Option ℚ) (k : String) : String → Option ℚ :=
  fun n => if n = k then none else m n

/-- Record spread `{...base, ...new}` (the merge done by
`engine.setVariables`). -/
def mapMergeRight (base upd : String → Option ℚ) : String → Option ℚ :=
  fun n => (upd n).elim (base n) some

/-- Embedding of the store action `setVariable`: assigns the engine key
and spreads the store record. -/
def storeSetVariable (name : String) (value : ℚ) (st : StoreState) : StoreState :=
  { st with
    engineVars := mapInsert st.engineVars name value,
    vars := mapInsert st.vars name value }

/-- Is the block an input or slider block? -/
def isVarBlock (b : SBlock) : Bool :=
  b.btype = BType.input || b.btype = BType.slider

/-- The `{ ...block, ...updates }` merge. -/
def applyUpdates (b : SBlock) (u : BlockUpdates) : SBlock :=
  { b with
    variableName := u.variableName?.getD b.variableName,
    defaultValue := u.defaultValue?.getD b.defaultValue }

/-- One iteration of the `blocks.map` callback of `updateBlock`,
threading the store state mutated by its embedded `set`/`setVariable`
calls.  `entryVars` is the `variables` record destructured at the entry
of `updateBlock`, which the rename branch reads (not the current one). -/
def updateBlockStep (id : String) (u : BlockUpdates)
    (entryVars : String → Option ℚ) (b : SBlock) (st : StoreState) :
    SBlock × StoreState :=
  if b.id ≠ id then (b, st)
  else
    let st1 :=
      match u.variableName? with
      | some newVarName =>
        if isVarBlock b ∧ b.variableName ≠ newVarName then
          let newVariables :=
            mapInsert (mapDelete entryVars b.variableName) newVarName b.defaultValue
          { st with
            vars := newVariables,
            engineVars := mapMergeRight st.engineVars newVariables }
        else st
      | none => st
    let st2 :=
      match u.defaultValue? with
      | some newValue =>
        if isVarBlock b then storeSetVariable b.variableName newValue st1 else st1
      | none => st1
    (applyUpdates b u, st2)

/-- The `blocks.map` of `updateBlock`, collecting the updated blocks and
threading the state. -/
def updateBlockFold (id : String) (u : BlockUpdates)
    (entryVars : String → Option ℚ) :
    List SBlock → StoreState → List SBlock × StoreState
  | [], st => ([], st)
  | b :: bs, st =>
    let (b', st1) := updateBlockStep id u entryVars b st
    let (bs', st2) := updateBlockFold id u entryVars bs st1
    (b' :: bs', st2)

/-- Embedding of the store action `updateBlock`. -/
def updateBlock (id : String) (u : BlockUpdates) (st : StoreState) : StoreState :=
  let (blocks', st1) := updateBlockFold id u st.vars st.blocks st
  { st1 with blocks := blocks' }

/-- Embedding of the store action `evaluate`, which delegates to the
engine instance and therefore reads the engine's `variables` record. -/
def storeEvaluate (st : StoreState) (formula : String) (rnd : List ℚ) : ℚ :=
  evaluate formula (fun n => (st.engineVars n).map JNum.fin) rnd

/-! ### Auxiliary definitions used by the claim statements -/

/-- The denylisted-token test of the claim: the string contains `window`,
`constructor`, a backtick, `[`, or `eval(` (the first two, being regex
alternatives with the `i` flag in the source, case-insensitively). -/
def containsDenyToken (e : List Char) : Bool :=
  ciHas e "window".data || ciHas e "constructor".data ||
  e.contains (Char.ofNat 96) || e.contains '[' || hasSubstr "eval(".data e

mutual

/-- Does the expression avoid every reference to `Math.random`? -/
def noRandomE : Expr → Bool
  | .num _ => true
  | .mathProp f => decide (f ≠ "random")
  | .add a b => noRandomE a && noRandomE b
  | .sub a b => noRandomE a && noRandomE b
  | .mul a b => noRandomE a && noRandomE b
  | .div a b => noRandomE a && noRandomE b
  | .mod a b => noRandomE a && noRandomE b
  | .neg a => noRandomE a
  | .pos a => noRandomE a
  | .seq a b => noRandomE a && noRandomE b
  | .call f args => noRandomE f && noRandomL args

/-- `noRandomE` on every expression of a list. -/
def noRandomL : List Expr → Bool
  | [] => true
  | e :: es => noRandomE e && noRandomL es

end

/-- The front of the evaluation pipeline: substitution, sanitization,
lexing and parsing of a formula (without evaluating). -/
def parsedAst (f : String) (v : String → Option JNum) : Option Expr :=
  (sanitizeExpression (substituteVars v f.data)).bind fun s =>
    (tokenize s).bind parseTop

/-- Does the formula's parsed expression (if any) avoid `Math.random`? -/
def pipelineNoRandom (f : String) (v : String → Option JNum) : Bool :=
  match parsedAst f v with
  | some ast => noRandomE ast
  | none => true

/-- Scenario for the rename claim: one slider block with variable `a` and
default value 100, with the runtime records initialized accordingly (as
`loadCalculator`/`addBlock` would). -/
def c1State0 : StoreState :=
  { blocks := [{ id := "s", btype := .slider, variableName := "a", defaultValue := 100 }],
    vars := fun n => if n = "a" then some 100 else none,
    engineVars := fun n => if n = "a" then some 100 else none }

/-- The scenario after the user edits the live value of `a` to 7 (the
`setVariable` path taken by the input/slider renderers). -/
def c1State1 : StoreState := storeSetVariable "a" 7 c1State0

/-- The scenario after renaming the block's variable from `a` to `b` via
`updateBlock`. -/
def c1State2 : StoreState :=
  updateBlock "s" { variableName? := some "b" } c1State1

/-! ## Shared lemmas about the pipeline -/

theorem evaluate_zero_of_sanitize_none {f : String} {v : String → Option JNum}
    {rnd : List ℚ} (h : sanitizeExpression (substituteVars v f.data) = none) :
    evaluate f v rnd = 0 := by
  unfold evaluate
  split
  · rfl
  · simp only [h]

theorem sanitize_none_of_dangerous {e : List Char} (h : dangerousHit e = true) :
    sanitizeExpression e = none := by
  simp [sanitizeExpression, h]

theorem sanitize_none_of_badCharClass {e : List Char}
    (h : charClassOk (removeMathCalls e) = false) :
    sanitizeExpression e = none := by
  unfold sanitizeExpression
  split_ifs <;> simp_all

theorem sanitize_none_of_opSeq {e : List Char} (h : opSeqHit e = true) :
    sanitizeExpression e = none := by
  unfold sanitizeExpression
  split_ifs <;> simp_all

/-! ## Claim theorems -/

/-- Claim C1 (code bug): renaming a slider's variable from `a` to `b` via
`updateBlock` does remove `a` from the store's `variables` record and
bind `b` in the same atomic update, but (i) `b` receives the block's
`defaultValue` (100), not the live value 7 that `a` held immediately
before the rename, and (ii) the engine's own record — the one
`store.evaluate` reads — still contains `a`, because `setVariables`
spreads the new record over the old one instead of replacing it; so
formulas referencing `{a}` still resolve to 7 instead of falling back
to 0, and formulas referencing `{b}` resolve to 100 instead of 7. -/
theorem claimC1_rename_code_bug :
    c1State1.vars "a" = some 7 ∧
    c1State2.vars "a" = none ∧
    c1State2.vars "b" = some 100 ∧
    c1State2.engineVars "a" = some 7 ∧
    storeEvaluate c1State2 "\x7ba\x7d" [] = 7 ∧
    storeEvaluate c1State2 "\x7bb\x7d" [] = 100 ∧
    some (100 : ℚ) ≠ some 7 := by
  refine ⟨by decide, by decide, by decide, by decide, by decide, by decide, by decide⟩

/-- Claim C2: evaluation is total — for every formula, variable record
and random stream it either flows through the whole pipeline
(substitution, sanitization, lexing, parsing, evaluation) to a finite
numeric value, or degrades to 0 at the failure point (unsafe expression,
parse or evaluation error, non-finite or non-numeric result); an empty or
whitespace-only formula evaluates to 0; and division by zero,
`evaluate("10 / {x}", {x: 0})`, returns 0 rather than Infinity. -/
theorem claimC2_evaluate_total (f : String) (v : String → Option JNum) (rnd : List ℚ) :
    ((jsTrim f.data).isEmpty = true → evaluate f v rnd = 0) ∧
    (evaluate f v rnd = 0 ∨
      ∃ sanitized ts ast val σ,
        sanitizeExpression (substituteVars v f.data) = some sanitized ∧
        tokenize sanitized = some ts ∧
        parseTop ts = some ast ∧
        evalA (sanitized.length + 1) ast rnd = some (.num (.fin val), σ) ∧
        evaluate f v rnd = val) ∧
    evaluate "10 / \x7bx\x7d" (fun n => if n = "x" then some (.fin 0) else none) rnd = 0 := by
  refine ⟨fun h => by simp [evaluate, h], ?_, rfl⟩
  by_cases htrim : (jsTrim f.data).isEmpty = true
  · exact Or.inl (by simp [evaluate, htrim])
  · rcases hs : sanitizeExpression (substituteVars v f.data) with _ | s
    · exact Or.inl (by simp [evaluate, htrim, hs])
    · rcases ht : tokenize s with _ | ts
      · exact Or.inl (by simp [evaluate, htrim, hs, ht])
      · rcases hp : parseTop ts with _ | ast
        · exact Or.inl (by simp [evaluate, htrim, hs, ht, hp])
        · rcases he : evalA (s.length + 1) ast rnd with _ | ⟨w, σ⟩
          · exact Or.inl (by simp [evaluate, htrim, hs, ht, hp, he])
          · rcases w with jn | fn | _
            · rcases jn with q | _ | _ | _
              · exact Or.inr ⟨s, ts, ast, q, σ, rfl, ht, hp, he,
                  by simp [evaluate, htrim, hs, ht, hp, he]⟩
              · exact Or.inl (by simp [evaluate, htrim, hs, ht, hp, he])
              · exact Or.inl (by simp [evaluate, htrim, hs, ht, hp, he])
              · exact Or.inl (by simp [evaluate, htrim, hs, ht, hp, he])
            · exact Or.inl (by simp [evaluate, htrim, hs, ht, hp, he])
            · exact Or.inl (by simp [evaluate, htrim, hs, ht, hp, he])

/-- Witness for C2 at concrete inputs: a whitespace-only formula and the
division-by-zero example both evaluate to 0. -/
theorem claimC2_witness :
    evaluate "  " (fun _ => none) [] = 0 ∧
    evaluate "10 / \x7bx\x7d" (fun n => if n = "x" then some (.fin 0) else none) [] = 0 :=
  ⟨(claimC2_evaluate_total "  " (fun _ => none) []).1 (by decide),
   (claimC2_evaluate_total "10 / \x7bx\x7d"
      (fun n => if n = "x" then some (.fin 0) else none) []).2.2⟩

/-- Claim C3 counterexample: `"Math.random()"` is accepted by the
sanitizer, and two evaluations of the same (formula, variables) pair
under different random streams return different values — evaluation of
sanitizer-accepted formulas is not deterministic. -/
theorem claimC3_counterexample :
    sanitizeExpression (substituteVars (fun _ => none) "Math.random()".data) =
      some "Math.random()".data ∧
    evaluate "Math.random()" (fun _ => none) [0] = 0 ∧
    evaluate "Math.random()" (fun _ => none) [1/2] = 1/2 ∧
    (0 : ℚ) ≠ 1/2 := by
  refine ⟨by decide, by decide, by decide, by decide⟩

/-- Claim C5 counterexample: the formula `"{window}"` contains the
denylisted token `window`, yet with `window` bound to 5 it evaluates to 5
(not 0) and `validate` reports it valid — the `{name}` substitution runs
before the denylist test and removes the token. -/
theorem claimC5_counterexample :
    hasSubstr "window".data "\x7bwindow\x7d".data = true ∧
    evaluate "\x7bwindow\x7d"
      (fun n => if n = "window" then some (.fin 5) else none) [] = 5 ∧
    validate "\x7bwindow\x7d" = true := by
  refine ⟨by decide, by decide, by decide⟩

/-- Claim C6 counterexample: `evaluate("max({a},{b})", {a:2,b:9})`
returns 0, not 9 — a bare `max` call fails the sanitizer's
character-class check, which only admits function calls written
`Math.max`. -/
theorem claimC6_counterexample :
    evaluate "max(\x7ba\x7d,\x7bb\x7d)"
      (fun n => if n = "a" then some (.fin 2)


                else if n = "b" then some (.fin 9) else none) [] = 0 ∧
    (0 : ℚ) ≠ 9 := by
  refine ⟨by decide, by decide⟩

/-- Claim C6 (amended): every whitelisted function name is accepted by
the sanitizer when invoked as `Math.name`, and such calls are evaluated:
`evaluate("Math.max({a},{b})", {a:2,b:9})` returns 9, while the bare
`max({a},{b})` of the original claim is rejected by the character-class
check and returns 0, and `evaluate("window.location", {})` returns 0. -/
theorem claimC6_amended :
    (∀ fn, fn ∈ ALLOWED_MATH_FUNCTIONS →
      (sanitizeExpression ("Math.".data ++ fn.data ++ "(0)".data)).isSome = true) ∧
    evaluate "Math.max(\x7ba\x7d,\x7bb\x7d)"
      (fun n => if n = "a" then some (.fin 2)
                else if n = "b" then some (.fin 9) else none) [] = 9 ∧
    evaluate "max(\x7ba\x7d,\x7bb\x7d)"
      (fun n => if n = "a" then some (.fin 2)
                else if n = "b" then some (.fin 9) else none) [] = 0 ∧
    evaluate "window.location" (fun _ => none) [] = 0 := by
  refine ⟨?_, by decide, by decide, by decide⟩
  intro fn hfn
  fin_cases hfn <;> decide

/-- Witness for C6 at a concrete whitelisted name: the sanitizer accepts
`Math.max(0)`. -/
theorem claimC6_witness :
    (sanitizeExpression ("Math.".data ++ "max".data ++ "(0)".data)).isSome = true :=
  claimC6_amended.1 "max" (by decide)

/-- Claim C7 counterexample: `"1%%2"` contains two consecutive binary
`%` operators that are not explainable as a unary minus, yet
`sanitizeExpression` returns it unchanged instead of `null` — the
operator-sequence regex `[+*/]{2,}|[+*/]\s*[+*/]` does not cover `%`. -/
theorem claimC7_counterexample :
    sanitizeExpression "1%%2".data = some "1%%2".data := by decide

/-- Claim C7 (amended): the operator-sequence check covers exactly the
binary operators `+`, `*` and `/`: whenever an expression contains two of
them separated only by whitespace, `sanitizeExpression` returns `null`
and `evaluate` returns 0; consecutive `%` (or `-`) operators are not
rejected by the sanitizer, though evaluating `"1%%2"` still yields 0 via
the JavaScript syntax error. -/
theorem claimC7_amended (e : List Char) (f : String) (v : String → Option JNum)
    (rnd : List ℚ) :
    (opSeqHit e = true → sanitizeExpression e = none) ∧
    (opSeqHit (substituteVars v f.data) = true → evaluate f v rnd = 0) ∧
    evaluate "1%%2" (fun _ => none) rnd = 0 :=
  ⟨fun h => sanitize_none_of_opSeq h,
   fun h => evaluate_zero_of_sanitize_none (sanitize_none_of_opSeq h),
   rfl⟩

/-- Witness for C7 at a concrete input: `"1**2"` trips the
operator-sequence check and is rejected. -/
theorem claimC7_witness :
    opSeqHit "1**2".data = true ∧ sanitizeExpression "1**2".data = none :=
  ⟨by decide, (claimC7_amended "1**2".data "" (fun _ => none) []).1 (by decide)⟩

theorem substLoop_congr {r1 r2 : List Char → List Char} (h : ∀ n, r1 n = r2 n) :
    ∀ (s : List Char) (p : Option (List Char)), substLoop r1 s p = substLoop r2 s p := by
  intro s
  induction s with
  | nil => intro p; cases p <;> simp [substLoop]
  | cons c rest ih =>
    intro p
    cases p with
    | none =>
      rw [substLoop, substLoop]
      split_ifs <;> simp [ih]
    | some pend =>
      rw [substLoop, substLoop]
      split_ifs <;> simp [h, ih]

/-- Claim C4: a variable reference whose name is absent from the mapping
is substituted with `0` and evaluation proceeds on the rest of the
expression: substitution under `v` coincides with substitution under `v`
completed with 0 at every missing name, and
`evaluate("{missing} + 5", {})` returns 5. -/
theorem claimC4_fail_open (f : String) (v : String → Option JNum) (rnd : List ℚ) :
    substituteVars v f.data =
      substituteVars (fun n => some ((v n).getD (JNum.fin 0))) f.data ∧
    evaluate "\x7bmissing\x7d + 5" (fun _ => none) rnd = 5 := by
  constructor
  · apply substLoop_congr
    intro n
    simp only [substRepl]
    cases hv : v n.asString with
    | none => simp [Option.getD]; rfl
    | some j => cases j <;> simp
  · rfl

theorem jsSetDedupAux_eq {α : Type} [DecidableEq α] (l seen : List α) :
    jsSetDedupAux l seen = dedupFirst (l.filter (fun x => decide (x ∉ seen))) := by
  induction l generalizing seen with
  | nil => simp [jsSetDedupAux, dedupFirst]
  | cons x xs ih =>
    by_cases hx : x ∈ seen
    · rw [jsSetDedupAux, if_pos hx, ih, List.filter_cons]
      simp [hx]
    · rw [jsSetDedupAux, if_neg hx, ih, List.filter_cons]
      simp only [hx, not_false_eq_true, decide_True, if_true]
      rw [dedupFirst, List.filter_filter]
      have hpq : (fun y => decide (y ∉ x :: seen)) =
          (fun y => decide (y ≠ x) && decide (y ∉ seen)) := by
        funext y
        by_cases hy : y = x <;> by_cases hys : y ∈ seen <;> simp [hy, hys]
      rw [hpq]

theorem mem_dedupFirst {α : Type} [DecidableEq α] (l : List α) (y : α) :
    y ∈ dedupFirst l ↔ y ∈ l := by
  induction l using dedupFirst.induct with
  | case1 => simp [dedupFirst]
  | case2 x xs ih =>
    rw [dedupFirst]
    by_cases hyx : y = x
    · subst hyx; simp
    · simp only [ne_eq, decide_not] at ih ⊢
      simp [ih, List.mem_filter, hyx]

theorem nodup_dedupFirst {α : Type} [DecidableEq α] (l : List α) :
    (dedupFirst l).Nodup := by
  induction l using dedupFirst.induct with
  | case1 => simp [dedupFirst]
  | case2 x xs ih =>
    rw [dedupFirst]
    refine List.Nodup.cons (fun hx => ?_) ih
    have hmem := (mem_dedupFirst _ _).1 hx
    simp [List.mem_filter] at hmem

/-- Claim C8: `extractVariables` returns the identifiers of the `{name}`
tokens with duplicates removed — it equals the first-occurrence
deduplication of the match list (each name listed exactly once, in order
of first appearance), is duplicate-free, contains exactly the matched
names, and `extractVariables("{a} + {b} * 2") = ["a","b"]`. -/
theorem claimC8_extractVariables (f : String) :
    extractVariables f = dedupFirst ((namesLoop f.data none).map List.asString) ∧
    (extractVariables f).Nodup ∧
    (∀ n, n ∈ extractVariables f ↔ n ∈ (namesLoop f.data none).map List.asString) ∧
    extractVariables "\x7ba\x7d + \x7bb\x7d * 2" = ["a", "b"] := by
  have he : extractVariables f =
      dedupFirst ((namesLoop f.data none).map List.asString) := by
    rw [extractVariables, jsSetDedupAux_eq]
    congr 1
    simp
  refine ⟨he, ?_, ?_, by decide⟩
  · rw [he]; exact nodup_dedupFirst _
  · intro n; rw [he]; exact mem_dedupFirst _ _

/-- Claim C9: `formatValue` with `percent` is the zero-fraction-digit
`de-DE` grouped rendering of the value followed by `%` (so
`formatValue 42 percent = "42%"`); with `currency` it is the
zero-fraction-digit grouped rendering followed by a no-break space and
`€`; with `number` it renders with at most one fraction digit. -/
theorem claimC9_formatValue (v : ℚ) :
    formatValue v .percent = (intlDeDE 0 v).asString ++ "%" ∧
    formatValue 42 .percent = "42%" ∧
    formatValue v .currency = (intlDeDE 0 v ++ [Char.ofNat 160, '€']).asString ∧
    formatValue (1234 + 1/2) .currency = "1.235 €" ∧
    formatValue v .number = (intlDeDE 1 v).asString ∧
    formatValue (1234567 + 89/100) .number = "1.234.567,9" := by
  refine ⟨rfl, by decide, rfl, by decide, rfl, by decide⟩

theorem hasSubstr_iff (p : List Char) : ∀ s, hasSubstr p s = true ↔ p <:+: s := by
  intro s
  induction s with
  | nil => simp [hasSubstr, List.infix_nil, List.isEmpty_iff]
  | cons c rest ih =>
    rw [hasSubstr, Bool.or_eq_true, ih, List.isPrefixOf_iff_prefix,
      List.infix_cons_iff]

theorem charClassOk_false_of_mem {s : List Char} {c : Char} (hc : c ∈ s)
    (hbad : isExprChar c = false) : charClassOk s = false := by
  unfold charClassOk
  have hall : s.all isExprChar = false :=
    List.all_eq_false.2 ⟨c, hc, by simp [hbad]⟩
  simp [hall]

theorem mem_removeMathLoop {c : Char} (hw : isWordChar c = false)
    (hl : c ∉ mathLit) :
    ∀ (s : List Char) (k : ℕ), k ≤ 6 → c ∈ s → c ∈ removeMathLoop s k := by
  have hcM : c ≠ 'M' := by
    rintro rfl
    exact absurd hw (by decide)
  intro s
  induction s with
  | nil => intro k _ hc; cases hc
  | cons d rest ih =>
    intro k hk hc
    rw [removeMathLoop]
    rcases List.mem_cons.1 hc with rfl | hcrest
    · split_ifs <;>
        first
        | exact List.mem_cons_self _ _
        | exact List.mem_append_right _ (List.mem_cons_self _ _)
        | exact absurd ‹isWordChar c = true› (by simp [hw])
        | exact absurd ‹c = 'M'› hcM
        | (exfalso
           apply hl
           rw [‹c = mathLit.getD k ' '›]
           have hk5 : k < mathLit.length := by simp [mathLit]; omega
           rw [List.getD_eq_getElem _ _ hk5]
           exact List.getElem_mem _)
    · split_ifs <;>
        first
        | exact ih 6 (by omega) hcrest
        | exact ih 1 (by omega) hcrest
        | exact ih (k + 1) (by omega) hcrest
        | exact List.mem_cons_of_mem _ (ih 0 (by omega) hcrest)
        | exact List.mem_cons_of_mem _ (ih 6 (by omega) hcrest)
        | exact List.mem_append_right _ (ih 1 (by omega) hcrest)
        | exact List.mem_append_right _
            (List.mem_cons_of_mem _ (ih 0 (by omega) hcrest))

theorem containsDeny_sanitize_none {e : List Char}
    (h : containsDenyToken e = true) : sanitizeExpression e = none := by
  unfold containsDenyToken at h
  simp only [Bool.or_eq_true] at h
  rcases h with (((h | h) | h) | h) | h
  · exact sanitize_none_of_dangerous (by simp [dangerousHit, h])
  · exact sanitize_none_of_dangerous (by simp [dangerousHit, h])
  · exact sanitize_none_of_dangerous
      (by have hm : Char.ofNat 96 ∈ e := by simpa using h
          simp [dangerousHit, hm])
  · by_cases hd : dangerousHit e = true
    · exact sanitize_none_of_dangerous hd
    · apply sanitize_none_of_badCharClass
      have hmem : '[' ∈ e := by simpa using h
      have hsurv : '[' ∈ removeMathCalls e :=
        mem_removeMathLoop (by decide) (by decide) e 0 (by omega) hmem
      exact charClassOk_false_of_mem hsurv (by decide)
  · apply sanitize_none_of_dangerous
    have h1 : "eval(".data <:+: e := (hasSubstr_iff _ _).1 h
    have h2 : "eval".data <:+: "eval(".data := ⟨[], ['('], by decide⟩
    have h3 : "eval".data.map Char.toLower <:+: e.map Char.toLower :=
      (h2.trans h1).map Char.toLower
    have h4 : ciHas e "eval".data = true := (hasSubstr_iff _ _).2 h3
    simp [dangerousHit, h4]

/-- Claim C5 (amended): whenever one of the denylisted tokens `window`,
`constructor`, backtick, `[`, `eval(` survives into the substituted
expression (i.e. does not lie solely inside a `{name}` reference, which
is substituted away before the checks), `evaluate` returns 0; and
whenever a token survives the `'1'` substitution performed by
`validate`, `validate` reports `valid: false`. -/
theorem claimC5_amended (f : String) (v : String → Option JNum) (rnd : List ℚ) :
    (containsDenyToken (substituteVars v f.data) = true → evaluate f v rnd = 0) ∧
    (containsDenyToken (substLoop (fun _ => ['1']) f.data none) = true →
      validate f = false) := by
  constructor
  · intro h
    exact evaluate_zero_of_sanitize_none (containsDeny_sanitize_none h)
  · intro h
    unfold validate
    rw [containsDeny_sanitize_none h]

/-- Witness for C5 at a concrete input: `"window+1"` retains the token
after substitution, evaluates to 0, and is reported invalid. -/
theorem claimC5_witness :
    containsDenyToken (substituteVars (fun _ => none) "window+1".data) = true ∧
    evaluate "window+1" (fun _ => none) [] = 0 ∧
    validate "window+1" = false :=
  ⟨by decide,
   (claimC5_amended "window+1" (fun _ => none) []).1 (by decide),
   (claimC5_amended "window+1" (fun _ => none) []).2 (by decide)⟩

theorem digitChar_isDigit (d : ℕ) : (digitChar d).isDigit = true := by
  unfold digitChar
  have h : d % 10 < 10 := Nat.mod_lt _ (by norm_num)
  interval_cases h2 : d % 10 <;> decide

theorem mem_natDigitsRevLoop {c : Char} :
    ∀ (fuel n : ℕ), c ∈ natDigitsRevLoop fuel n → c.isDigit = true := by
  intro fuel
  induction fuel with
  | zero => intro n hc; cases hc
  | succ fuel ih =>
    intro n hc
    rw [natDigitsRevLoop] at hc
    split_ifs at hc with h0
    · cases hc
    · rcases List.mem_cons.1 hc with rfl | hcrest
      · exact digitChar_isDigit _
      · exact ih _ hcrest

theorem mem_natDigits {c : Char} {n : ℕ} (h : c ∈ natDigits n) :
    c.isDigit = true := by
  rw [natDigits] at h
  split_ifs at h with h0
  · simp only [List.mem_singleton] at h
    subst h
    decide
  · exact mem_natDigitsRevLoop _ _ (List.mem_reverse.1 h)

theorem mem_fracDigitsLoop {c : Char} :
    ∀ (fuel : ℕ) (f : ℚ), c ∈ fracDigitsLoop fuel f → c.isDigit = true := by
  intro fuel
  induction fuel with
  | zero => intro f hc; cases hc
  | succ fuel ih =>
    intro f hc
    rw [fracDigitsLoop] at hc
    split_ifs at hc with h0
    · cases hc
    · rcases List.mem_cons.1 hc with rfl | hcrest
      · exact digitChar_isDigit _
      · exact ih _ hcrest

theorem mem_jsNumToStringNN {q : ℚ} {c : Char} (h : c ∈ jsNumToStringNN q) :
    c.isDigit = true ∨ c = '.' ∨ c = 'e' ∨ c = '+' := by
  simp only [jsNumToStringNN] at h
  split at h
  · split at h
    · simp only [List.mem_singleton] at h
      subst h
      exact Or.inl (by decide)
    · split at h
      · exact Or.inl (mem_natDigits h)
      · split at h
        next heq =>
          simp only [List.mem_singleton] at h
          subst h
          exact Or.inl (by decide)
        next d restd heq =>
          have hsub : ∀ x, x ∈ d :: restd → x ∈ natDigits q.num.toNat := by
            intro x hx
            rw [← heq] at hx
            exact List.mem_reverse.1
              ((List.dropWhile_sublist _).mem (List.mem_reverse.1 hx))
          rcases List.mem_append.1 h with h1 | h1
          · rcases List.mem_cons.1 h1 with rfl | h2
            · exact Or.inl (mem_natDigits (hsub _ (List.mem_cons_self _ _)))
            · split at h2
              · cases h2
              · rcases List.mem_cons.1 h2 with rfl | h3
                · exact Or.inr (Or.inl rfl)
                · exact Or.inl
                    (mem_natDigits (hsub _ (List.mem_cons_of_mem _ h3)))
          · rcases List.mem_cons.1 h1 with rfl | h2
            · exact Or.inr (Or.inr (Or.inl rfl))
            · rcases List.mem_cons.1 h2 with rfl | h3
              · exact Or.inr (Or.inr (Or.inr rfl))
              · exact Or.inl (mem_natDigits h3)
  · rcases List.mem_append.1 h with h1 | h1
    · exact Or.inl (mem_natDigits h1)
    · rcases List.mem_cons.1 h1 with rfl | h2
      · exact Or.inr (Or.inl rfl)
      · split at h2
        · simp only [List.mem_singleton] at h2
          subst h2
          exact Or.inl (by decide)
        · exact Or.inl (mem_fracDigitsLoop _ _
            (List.mem_reverse.1 ((List.dropWhile_sublist _).mem
              (List.mem_reverse.1 h2))))

theorem mem_jsNumToString {q : ℚ} {c : Char} (h : c ∈ jsNumToString q) :
    c.isDigit = true ∨ c = '-' ∨ c = '.' ∨ c = 'e' ∨ c = '+' := by
  rw [jsNumToString] at h
  split_ifs at h
  · rcases List.mem_cons.1 h with rfl | h2
    · exact Or.inr (Or.inl rfl)
    · rcases mem_jsNumToStringNN h2 with h3 | h3 | h3 | h3
      · exact Or.inl h3
      · exact Or.inr (Or.inr (Or.inl h3))
      · exact Or.inr (Or.inr (Or.inr (Or.inl h3)))
      · exact Or.inr (Or.inr (Or.inr (Or.inr h3)))
  · rcases mem_jsNumToStringNN h with h3 | h3 | h3 | h3
    · exact Or.inl h3
    · exact Or.inr (Or.inr (Or.inl h3))
    · exact Or.inr (Or.inr (Or.inr (Or.inl h3)))
    · exact Or.inr (Or.inr (Or.inr (Or.inr h3)))

theorem noM_jsNumToString (q : ℚ) : 'M' ∉ jsNumToString q := by
  intro h
  rcases mem_jsNumToString h with h1 | h1 | h1 | h1 | h1 <;>
    exact absurd h1 (by decide)

theorem removeMath_noM {s : List Char} (h : ∀ c ∈ s, c ≠ 'M') :
    removeMathLoop s 0 = s := by
  induction s with
  | nil => simp [removeMathLoop]
  | cons d rest ih =>
    rw [removeMathLoop]
    have hd : d ≠ 'M' := h d (List.mem_cons_self _ _)
    rw [if_neg (by omega : ¬(0 : ℕ) = 6), if_neg (by omega : ¬(0 : ℕ) = 5),
      if_neg (by simpa [mathLit] using hd), if_neg hd]
    simp [mathLit, ih fun c hc => h c (List.mem_cons_of_mem _ hc)]

theorem substLoop_bracex (r : List Char → List Char) :
    substLoop r ('\x7b' :: 'x' :: '\x7d' :: []) none = r ['x'] := by
  show r ['x'] ++ [] = r ['x']
  exact List.append_nil _

/-- Claim C10: there exist finite variable values for which evaluation of
a formula referencing them returns 0 instead of the arithmetic result:
whenever `String(value)` contains the letter `e` (exponent notation), the
substituted expression fails the character-class check and
`evaluate("{x}", {x: value})` returns 0; in particular `String(1e21)` is
`"1e+21"` although `1e21 ≠ 0`. -/
theorem claimC10_exponent_form (q : ℚ) (rnd : List ℚ)
    (h : 'e' ∈ jsNumToString q) :
    evaluate "\x7bx\x7d" (fun n => if n = "x" then some (.fin q) else none) rnd = 0 ∧
    jsNumToString ((10 : ℚ) ^ (21 : ℕ)) = "1e+21".data ∧
    (10 : ℚ) ^ (21 : ℕ) ≠ 0 := by
  refine ⟨?_, by decide, by decide⟩
  have hsub : substituteVars
      (fun n => if n = "x" then some (.fin q) else none) "\x7bx\x7d".data =
      jsNumToString q :=
    substLoop_bracex (substRepl (fun n => if n = "x" then some (.fin q) else none))
  apply evaluate_zero_of_sanitize_none
  rw [hsub]
  by_cases hd : dangerousHit (jsNumToString q) = true
  · exact sanitize_none_of_dangerous hd
  · apply sanitize_none_of_badCharClass
    rw [removeMathCalls,
      removeMath_noM (fun c hc he => by subst he; exact noM_jsNumToString q hc)]
    exact charClassOk_false_of_mem h (by decide)

/-- Witness for C10 at the concrete value `1e21`. -/
theorem claimC10_witness :
    ('e' ∈ jsNumToString ((10 : ℚ) ^ (21 : ℕ))) ∧
    evaluate "\x7bx\x7d"
      (fun n => if n = "x" then some (.fin ((10 : ℚ) ^ (21 : ℕ))) else none) [] = 0 :=
  ⟨by decide,
   (claimC10_exponent_form ((10 : ℚ) ^ (21 : ℕ)) [] (by decide)).1⟩

theorem evalA_noRandom :
    ∀ fuel : ℕ,
      (∀ (ast : Expr), noRandomE ast = true → ∀ (σ σ' : List ℚ),
        evalA fuel ast σ = (evalA fuel ast σ').map (fun p => (p.1, σ)) ∧
        (∀ v σ₂, evalA fuel ast σ = some (v, σ₂) → v ≠ JVal.fnVal "random")) ∧
      (∀ (es : List Expr), noRandomL es = true → ∀ (σ σ' : List ℚ),
        evalArgs fuel es σ = (evalArgs fuel es σ').map (fun p => (p.1, σ))) := by
  intro fuel
  induction fuel with
  | zero =>
    refine ⟨fun ast _ σ σ' => ⟨by simp [evalA], fun v σ₂ hv => by simp [evalA] at hv⟩,
      fun es _ σ σ' => by simp [evalArgs]⟩
  | succ fuel ih =>
    obtain ⟨ihE, ihL⟩ := ih
    constructor
    · intro ast hnr σ σ'
      cases ast with
      | num q =>
        refine ⟨by simp [evalA], fun v σ₂ hv => ?_⟩
        simp only [evalA, Option.some.injEq, Prod.mk.injEq] at hv
        obtain ⟨rfl, rfl⟩ := hv
        simp
      | mathProp g =>
        simp only [noRandomE, decide_eq_true_eq] at hnr
        refine ⟨by simp [evalA], fun v σ₂ hv => ?_⟩
        simp only [evalA, Option.some.injEq, Prod.mk.injEq] at hv
        obtain ⟨rfl, rfl⟩ := hv
        unfold propVal
        split_ifs <;> simp_all
      | add a b =>
        simp only [noRandomE, Bool.and_eq_true] at hnr
        obtain ⟨hna, hnb⟩ := hnr
        rcases hA : evalA fuel a σ' with _ | ⟨va, σ1'⟩
        · have Ha1 : evalA fuel a σ = none := by
            rw [(ihE a hna σ σ').1, hA]; rfl
          exact ⟨by simp [evalA, Option.bind, hA, Ha1],
            fun v σ₂ hv => by simp [evalA, Option.bind, Ha1] at hv⟩
        · have Ha1 : evalA fuel a σ = some (va, σ) := by
            rw [(ihE a hna σ σ').1, hA]; rfl
          rcases hB : evalA fuel b σ1' with _ | ⟨vb, σ2'⟩
          · have Hb1 : evalA fuel b σ = none := by
              rw [(ihE b hnb σ σ1').1, hB]; rfl
            exact ⟨by simp [evalA, Option.bind, hA, Ha1, hB, Hb1],
              fun v σ₂ hv => by simp [evalA, Option.bind, Ha1, Hb1] at hv⟩
          · have Hb1 : evalA fuel b σ = some (vb, σ) := by
              rw [(ihE b hnb σ σ1').1, hB]; rfl
            refine ⟨by simp [evalA, Option.bind, hA, Ha1, hB, Hb1],
              fun v σ₂ hv => ?_⟩
            simp [evalA, Option.bind, Ha1, Hb1] at hv
            obtain ⟨rfl, rfl⟩ := hv
            simp
      | sub a b =>
        simp only [noRandomE, Bool.and_eq_true] at hnr
        obtain ⟨hna, hnb⟩ := hnr
        rcases hA : evalA fuel a σ' with _ | ⟨va, σ1'⟩
        · have Ha1 : evalA fuel a σ = none := by
            rw [(ihE a hna σ σ').1, hA]; rfl
          exact ⟨by simp [evalA, Option.bind, hA, Ha1],
            fun v σ₂ hv => by simp [evalA, Option.bind, Ha1] at hv⟩
        · have Ha1 : evalA fuel a σ = some (va, σ) := by
            rw [(ihE a hna σ σ').1, hA]; rfl
          rcases hB : evalA fuel b σ1' with _ | ⟨vb, σ2'⟩
          · have Hb1 : evalA fuel b σ = none := by
              rw [(ihE b hnb σ σ1').1, hB]; rfl
            exact ⟨by simp [evalA, Option.bind, hA, Ha1, hB, Hb1],
              fun v σ₂ hv => by simp [evalA, Option.bind, Ha1, Hb1] at hv⟩
          · have Hb1 : evalA fuel b σ = some (vb, σ) := by
              rw [(ihE b hnb σ σ1').1, hB]; rfl
            refine ⟨by simp [evalA, Option.bind, hA, Ha1, hB, Hb1],
              fun v σ₂ hv => ?_⟩
            simp [evalA, Option.bind, Ha1, Hb1] at hv
            obtain ⟨rfl, rfl⟩ := hv
            simp
      | mul a b =>
        simp only [noRandomE, Bool.and_eq_true] at hnr
        obtain ⟨hna, hnb⟩ := hnr
        rcases hA : evalA fuel a σ' with _ | ⟨va, σ1'⟩
        · have Ha1 : evalA fuel a σ = none := by
            rw [(ihE a hna σ σ').1, hA]; rfl
          exact ⟨by simp [evalA, Option.bind, hA, Ha1],
            fun v σ₂ hv => by simp [evalA, Option.bind, Ha1] at hv⟩
        · have Ha1 : evalA fuel a σ = some (va, σ) := by
            rw [(ihE a hna σ σ').1, hA]; rfl
          rcases hB : evalA fuel b σ1' with _ | ⟨vb, σ2'⟩
          · have Hb1 : evalA fuel b σ = none := by
              rw [(ihE b hnb σ σ1').1, hB]; rfl
            exact ⟨by simp [evalA, Option.bind, hA, Ha1, hB, Hb1],
              fun v σ₂ hv => by simp [evalA, Option.bind, Ha1, Hb1] at hv⟩
          · have Hb1 : evalA fuel b σ = some (vb, σ) := by
              rw [(ihE b hnb σ σ1').1, hB]; rfl
            refine ⟨by simp [evalA, Option.bind, hA, Ha1, hB, Hb1],
              fun v σ₂ hv => ?_⟩
            simp [evalA, Option.bind, Ha1, Hb1] at hv
            obtain ⟨rfl, rfl⟩ := hv
            simp
      | div a b =>
        simp only [noRandomE, Bool.and_eq_true] at hnr
        obtain ⟨hna, hnb⟩ := hnr
        rcases hA : evalA fuel a σ' with _ | ⟨va, σ1'⟩
        · have Ha1 : evalA fuel a σ = none := by
            rw [(ihE a hna σ σ').1, hA]; rfl
          exact ⟨by simp [evalA, Option.bind, hA, Ha1],
            fun v σ₂ hv => by simp [evalA, Option.bind, Ha1] at hv⟩
        · have Ha1 : evalA fuel a σ = some (va, σ) := by
            rw [(ihE a hna σ σ').1, hA]; rfl
          rcases hB : evalA fuel b σ1' with _ | ⟨vb, σ2'⟩
          · have Hb1 : evalA fuel b σ = none := by
              rw [(ihE b hnb σ σ1').1, hB]; rfl
            exact ⟨by simp [evalA, Option.bind, hA, Ha1, hB, Hb1],
              fun v σ₂ hv => by simp [evalA, Option.bind, Ha1, Hb1] at hv⟩
          · have Hb1 : evalA fuel b σ = some (vb, σ) := by
              rw [(ihE b hnb σ σ1').1, hB]; rfl
            refine ⟨by simp [evalA, Option.bind, hA, Ha1, hB, Hb1],
              fun v σ₂ hv => ?_⟩
            simp [evalA, Option.bind, Ha1, Hb1] at hv
            obtain ⟨rfl, rfl⟩ := hv
            simp
      | mod a b =>
        simp only [noRandomE, Bool.and_eq_true] at hnr
        obtain ⟨hna, hnb⟩ := hnr
        rcases hA : evalA fuel a σ' with _ | ⟨va, σ1'⟩
        · have Ha1 : evalA fuel a σ = none := by
            rw [(ihE a hna σ σ').1, hA]; rfl
          exact ⟨by simp [evalA, Option.bind, hA, Ha1],
            fun v σ₂ hv => by simp [evalA, Option.bind, Ha1] at hv⟩
        · have Ha1 : evalA fuel a σ = some (va, σ) := by
            rw [(ihE a hna σ σ').1, hA]; rfl
          rcases hB : evalA fuel b σ1' with _ | ⟨vb, σ2'⟩
          · have Hb1 : evalA fuel b σ = none := by
              rw [(ihE b hnb σ σ1').1, hB]; rfl
            exact ⟨by simp [evalA, Option.bind, hA, Ha1, hB, Hb1],
              fun v σ₂ hv => by simp [evalA, Option.bind, Ha1, Hb1] at hv⟩
          · have Hb1 : evalA fuel b σ = some (vb, σ) := by
              rw [(ihE b hnb σ σ1').1, hB]; rfl
            refine ⟨by simp [evalA, Option.bind, hA, Ha1, hB, Hb1],
              fun v σ₂ hv => ?_⟩
            simp [evalA, Option.bind, Ha1, Hb1] at hv
            obtain ⟨rfl, rfl⟩ := hv
            simp
      | neg a =>
        simp only [noRandomE] at hnr
        rcases hA : evalA fuel a σ' with _ | ⟨va, σ1'⟩
        · have Ha1 : evalA fuel a σ = none := by
            rw [(ihE a hnr σ σ').1, hA]; rfl
          exact ⟨by simp [evalA, Option.bind, hA, Ha1],
            fun v σ₂ hv => by simp [evalA, Option.bind, Ha1] at hv⟩
        · have Ha1 : evalA fuel a σ = some (va, σ) := by
            rw [(ihE a hnr σ σ').1, hA]; rfl
          refine ⟨by simp [evalA, Option.bind, hA, Ha1], fun v σ₂ hv => ?_⟩
          simp [evalA, Option.bind, Ha1] at hv
          obtain ⟨rfl, rfl⟩ := hv
          simp
      | pos a =>
        simp only [noRandomE] at hnr
        rcases hA : evalA fuel a σ' with _ | ⟨va, σ1'⟩
        · have Ha1 : evalA fuel a σ = none := by
            rw [(ihE a hnr σ σ').1, hA]; rfl
          exact ⟨by simp [evalA, Option.bind, hA, Ha1],
            fun v σ₂ hv => by simp [evalA, Option.bind, Ha1] at hv⟩
        · have Ha1 : evalA fuel a σ = some (va, σ) := by
            rw [(ihE a hnr σ σ').1, hA]; rfl
          refine ⟨by simp [evalA, Option.bind, hA, Ha1], fun v σ₂ hv => ?_⟩
          simp [evalA, Option.bind, Ha1] at hv
          obtain ⟨rfl, rfl⟩ := hv
          simp
      | seq a b =>
        simp only [noRandomE, Bool.and_eq_true] at hnr
        obtain ⟨hna, hnb⟩ := hnr
        rcases hA : evalA fuel a σ' with _ | ⟨va, σ1'⟩
        · have Ha1 : evalA fuel a σ = none := by
            rw [(ihE a hna σ σ').1, hA]; rfl
          exact ⟨by simp [evalA, Option.bind, hA, Ha1],
            fun v σ₂ hv => by simp [evalA, Option.bind, Ha1] at hv⟩
        · have Ha1 : evalA fuel a σ = some (va, σ) := by
            rw [(ihE a hna σ σ').1, hA]; rfl
          rcases hB : evalA fuel b σ1' with _ | ⟨vb, σ2'⟩
          · have Hb1 : evalA fuel b σ = none := by
              rw [(ihE b hnb σ σ1').1, hB]; rfl
            exact ⟨by simp [evalA, Option.bind, hA, Ha1, hB, Hb1],
              fun v σ₂ hv => by simp [evalA, Option.bind, Ha1, Hb1] at hv⟩
          · have Hb1 : evalA fuel b σ = some (vb, σ) := by
              rw [(ihE b hnb σ σ1').1, hB]; rfl
            refine ⟨by simp [evalA, Option.bind, hA, Ha1, hB, Hb1],
              fun v σ₂ hv => ?_⟩
            simp [evalA, Option.bind, Ha1, Hb1] at hv
            obtain ⟨rfl, rfl⟩ := hv
            exact (ihE b hnb σ σ1').2 _ _ Hb1
      | call g args =>
        simp only [noRandomE, Bool.and_eq_true] at hnr
        obtain ⟨hng, hnargs⟩ := hnr
        rcases hF : evalA fuel g σ' with _ | ⟨vf, σ1'⟩
        · have HF1 : evalA fuel g σ = none := by
            rw [(ihE g hng σ σ').1, hF]; rfl
          exact ⟨by simp [evalA, Option.bind, hF, HF1],
            fun v σ₂ hv => by simp [evalA, Option.bind, HF1] at hv⟩
        · have HF1 : evalA fuel g σ = some (vf, σ) := by
            rw [(ihE g hng σ σ').1, hF]; rfl
          have hvf : vf ≠ JVal.fnVal "random" := (ihE g hng σ σ').2 _ _ HF1
          rcases hG : evalArgs fuel args σ1' with _ | ⟨vs, σ2'⟩
          · have HG1 : evalArgs fuel args σ = none := by
              rw [ihL args hnargs σ σ1', hG]; rfl
            exact ⟨by simp [evalA, Option.bind, hF, HF1, hG, HG1],
              fun v σ₂ hv => by simp [evalA, Option.bind, HF1, HG1] at hv⟩
          · have HG1 : evalArgs fuel args σ = some (vs, σ) := by
              rw [ihL args hnargs σ σ1', hG]; rfl
            cases vf with
            | num j =>
              exact ⟨by simp [evalA, Option.bind, hF, HF1, hG, HG1],
                fun v σ₂ hv => by simp [evalA, Option.bind, HF1, HG1] at hv⟩
            | undefVal =>
              exact ⟨by simp [evalA, Option.bind, hF, HF1, hG, HG1],
                fun v σ₂ hv => by simp [evalA, Option.bind, HF1, HG1] at hv⟩
            | fnVal name =>
              have hname : ¬(name = "random") := by
                intro hn
                exact hvf (by rw [hn])
              rcases hM : mathFnSem name (vs.map toNum) with _ | j
              · exact ⟨by simp [evalA, Option.bind, hF, HF1, hG, HG1, hname, hM],
                  fun v σ₂ hv => by
                    simp [evalA, Option.bind, HF1, HG1, hname, hM] at hv⟩
              · refine ⟨by simp [evalA, Option.bind, hF, HF1, hG, HG1, hname, hM],
                  fun v σ₂ hv => ?_⟩
                simp [evalA, Option.bind, HF1, HG1, hname, hM] at hv
                obtain ⟨rfl, rfl⟩ := hv
                simp
    · intro es hnr σ σ'
      cases es with
      | nil => simp [evalArgs]
      | cons e es =>
        simp only [noRandomL, Bool.and_eq_true] at hnr
        obtain ⟨hne, hnes⟩ := hnr
        rcases hA : evalA fuel e σ' with _ | ⟨ve, σ1'⟩
        · have Ha1 : evalA fuel e σ = none := by
            rw [(ihE e hne σ σ').1, hA]; rfl
          simp [evalArgs, Option.bind, hA, Ha1]
        · have Ha1 : evalA fuel e σ = some (ve, σ) := by
            rw [(ihE e hne σ σ').1, hA]; rfl
          rcases hB : evalArgs fuel es σ1' with _ | ⟨vs, σ2'⟩
          · have Hb1 : evalArgs fuel es σ = none := by
              rw [ihL es hnes σ σ1', hB]; rfl
            simp [evalArgs, Option.bind, hA, Ha1, hB, Hb1]
          · have Hb1 : evalArgs fuel es σ = some (vs, σ) := by
              rw [ihL es hnes σ σ1', hB]; rfl
            simp [evalArgs, Option.bind, hA, Ha1, hB, Hb1]

/-- Claim C3 (amended): evaluation of a sanitizer-accepted formula always
returns a (finite) rational — non-finite results are normalized to 0 —
and it is deterministic provided the parsed expression contains no
reference to `random`: any two evaluations under arbitrary random streams
return the same number.  (The allow-list does admit `random`, and
`Math.random()` is sanitizer-accepted and nondeterministic, as the
counterexample shows.) -/
theorem claimC3_amended (f : String) (v : String → Option JNum)
    (rnd1 rnd2 : List ℚ) (h : pipelineNoRandom f v = true) :
    evaluate f v rnd1 = evaluate f v rnd2 := by
  by_cases htrim : (jsTrim f.data).isEmpty = true
  · simp [evaluate, htrim]
  · rcases hs : sanitizeExpression (substituteVars v f.data) with _ | s
    · simp [evaluate, htrim, hs]
    · rcases ht : tokenize s with _ | ts
      · simp [evaluate, htrim, hs, ht]
      · rcases hp : parseTop ts with _ | ast
        · simp [evaluate, htrim, hs, ht, hp]
        · have hnr : noRandomE ast = true := by
            unfold pipelineNoRandom parsedAst at h
            rw [hs] at h
            simpa [ht, hp] using h
          have hinv := ((evalA_noRandom (s.length + 1)).1 ast hnr rnd1 rnd2).1
          rcases he : evalA (s.length + 1) ast rnd2 with _ | ⟨w, σ⟩
          · simp [evaluate, htrim, hs, ht, hp, hinv, he]
          · rcases w with jn | n | u
            · rcases jn with q | _ | _ | _ <;>
                simp [evaluate, htrim, hs, ht, hp, hinv, he]
            · simp [evaluate, htrim, hs, ht, hp, hinv, he]
            · simp [evaluate, htrim, hs, ht, hp, hinv, he]

/-- Witness for C3's amended determinism at a concrete random-free
formula and two different random streams. -/
theorem claimC3_witness :
    pipelineNoRandom "1+2" (fun _ => none) = true ∧
    evaluate "1+2" (fun _ => none) [0] = evaluate "1+2" (fun _ => none) [7] :=
  ⟨by decide, claimC3_amended "1+2" (fun _ => none) [0] [7] (by decide)⟩

end RB
